import Mathlib

/-!
Shallow embedding of the document ingestion and retrieval pipeline of the
fund-report analysis backend (`backend/app/services/table_parser.py`,
`backend/app/services/document_processor.py`,
`backend/app/services/vector_store.py`).

Python strings are modelled as Lean `String` (lists of characters);
`decimal.Decimal` values as `ℚ` (standard finite numerals; the exotic
`NaN`/`Infinity`/exponent spellings accepted by `Decimal` are not produced
by any code path modelled here); `datetime` values as a calendar-date
record.  External effects (pdfplumber, the database session, the LLM and
embedding providers) are modelled as explicit environments of fallible
operations (`Except`), so that the orchestrator's control flow over them
is the code's own.
-/

set_option maxRecDepth 16384

/-! ## Python string primitives -/

/-- Python's whitespace class for `str.strip` and `\s` (ASCII part). -/
def isPySpace (c : Char) : Bool :=
  c = ' ' ∨ c = '\t' ∨ c = '\n' ∨ c = '\r' ∨ c = '\x0b' ∨ c = '\x0c'

/-- `str.strip()` on a character list. -/
def pyStripL (l : List Char) : List Char :=
  ((l.dropWhile isPySpace).reverse.dropWhile isPySpace).reverse

/-- `str.strip()`. -/
def pyStrip (s : String) : String := ⟨pyStripL s.data⟩

/-- `str.lower()` (ASCII; all keyword matching in the source is ASCII). -/
def pyLower (s : String) : String := ⟨s.data.map Char.toLower⟩

/-- Is `n` a prefix of `h`? (helper for the substring test). -/
def listPrefixOf : List Char → List Char → Bool
  | [], _ => true
  | _ :: _, [] => false
  | a :: as, b :: bs => a == b && listPrefixOf as bs

/-- Is `n` a contiguous substring of `h`? (Python's `n in h`). -/
def listSubOf (n : List Char) : List Char → Bool
  | [] => n.isEmpty
  | b :: bs => listPrefixOf n (b :: bs) || listSubOf n bs

/-- Python's `sub in hay` on strings. -/
def containsSub (hay sub : String) : Bool := listSubOf sub.data hay.data

/-- `' '.join(parts)`. -/
def joinSp : List String → String
  | [] => ""
  | [s] => s
  | s :: rest => s ++ " " ++ joinSp rest

/-- Total length of a list of sentences, without joining spaces
(the chunker's `current_length` accumulator). -/
def sumLen (l : List String) : Nat := (l.map String.length).sum

/-- Value of a string of decimal digit characters. -/
def digitsToNat : List Char → Nat :=
  List.foldl (fun acc c => acc * 10 + (c.toNat - '0'.toNat)) 0

/-- Split a character list on every occurrence of `sep`
(Python `str.split(sep)`; always at least one piece). -/
def splitOnCh (sep : Char) : List Char → List (List Char)
  | [] => [[]]
  | c :: rest =>
    match splitOnCh sep rest with
    | [] => [[c]]
    | p :: ps => if c = sep then [] :: p :: ps else (c :: p) :: ps

/-! ## Dates: `TableParser._parse_date`

`_parse_date` strips the input and tries a fixed ordered list of
`datetime.strptime` formats, returning the first success.  Each format is
modelled by its CPython `_strptime` regex (`%Y` = exactly 4 digits,
`%m` = `1[0-2]|0[1-9]|[1-9]`, `%d` = `3[01]|[12]\d|0[1-9]|[1-9]`,
month names case-insensitive, literal separators), followed by the
calendar validation `datetime.__new__` performs on the single match the
regex engine returns. -/

/-- A `datetime` result (the source only ever uses the date part). -/
structure PDate where
  year : Nat
  month : Nat
  day : Nat
deriving DecidableEq, Repr

/-- Gregorian leap year, as `datetime` uses. -/
def isLeapYear (y : Nat) : Bool := y % 4 = 0 ∧ (y % 100 ≠ 0 ∨ y % 400 = 0)

/-- Days in a month, as `datetime` uses. -/
def daysInMonth (y m : Nat) : Nat :=
  if m = 2 then (if isLeapYear y then 29 else 28)
  else if m = 4 ∨ m = 6 ∨ m = 9 ∨ m = 11 then 30
  else 31

/-- `datetime(year, month, day)`: calendar validation
(`MINYEAR = 1`; the 4-digit year regex bounds the year by 9999). -/
def mkDate (y m d : Nat) : Option PDate :=
  if 1 ≤ y ∧ 1 ≤ m ∧ m ≤ 12 ∧ 1 ≤ d ∧ d ≤ daysInMonth y m then some ⟨y, m, d⟩
  else none

/-- `%Y`: exactly four digits. -/
def matchY (l : List Char) : Option Nat :=
  if l.length = 4 ∧ l.all Char.isDigit then some (digitsToNat l) else none

/-- Two-digit alternatives of `%m` (`1[0-2]|0[1-9]`), in regex priority order. -/
def matchM2 (l : List Char) : Option Nat :=
  match l with
  | [a, b] =>
    if a = '1' ∧ '0' ≤ b ∧ b ≤ '2' then some (10 + (b.toNat - '0'.toNat))
    else if a = '0' ∧ '1' ≤ b ∧ b ≤ '9' then some (b.toNat - '0'.toNat)
    else none
  | _ => none

/-- One-digit alternative of `%m` (`[1-9]`). -/
def matchM1 (l : List Char) : Option Nat :=
  match l with
  | [a] => if '1' ≤ a ∧ a ≤ '9' then some (a.toNat - '0'.toNat) else none
  | _ => none

/-- `%m` matching a whole separator-delimited field. -/
def matchM (l : List Char) : Option Nat :=
  match matchM2 l with
  | some m => some m
  | none => matchM1 l

/-- Two-digit alternatives of `%d` (`3[01]|[12]\d`), in regex priority order. -/
def matchD2 (l : List Char) : Option Nat :=
  match l with
  | [a, b] =>
    if a = '3' ∧ ('0' ≤ b ∧ b ≤ '1') then some (30 + (b.toNat - '0'.toNat))
    else if (a = '1' ∨ a = '2') ∧ b.isDigit then
      some ((a.toNat - '0'.toNat) * 10 + (b.toNat - '0'.toNat))
    else none
  | _ => none

/-- One- or two-digit `%d` plus the `0[1-9]` alternative, matching a whole field. -/
def matchD (l : List Char) : Option Nat :=
  match matchD2 l with
  | some d => some d
  | none =>
    match l with
    | [a] => if '1' ≤ a ∧ a ≤ '9' then some (a.toNat - '0'.toNat) else none
    | ['0', b] => if '1' ≤ b ∧ b ≤ '9' then some (b.toNat - '0'.toNat) else none
    | _ => none

/-- A `Y sep m sep d` format (`'%Y-%m-%d'`, `'%Y/%m/%d'`). -/
def fmtYMDsep (sep : Char) (l : List Char) : Option PDate :=
  match splitOnCh sep l with
  | [a, b, c] =>
    match matchY a, matchM b, matchD c with
    | some y, some m, some d => mkDate y m d
    | _, _, _ => none
  | _ => none

/-- A `m sep d sep Y` format (`'%m/%d/%Y'`, `'%m-%d-%Y'`). -/
def fmtMDYsep (sep : Char) (l : List Char) : Option PDate :=
  match splitOnCh sep l with
  | [a, b, c] =>
    match matchM a, matchD b, matchY c with
    | some m, some d, some y => mkDate y m d
    | _, _, _ => none
  | _ => none

/-- A `d sep m sep Y` format (`'%d/%m/%Y'`, `'%d-%m-%Y'`). -/
def fmtDMYsep (sep : Char) (l : List Char) : Option PDate :=
  match splitOnCh sep l with
  | [a, b, c] =>
    match matchD a, matchM b, matchY c with
    | some d, some m, some y => mkDate y m d
    | _, _, _ => none
  | _ => none

/-- Full month names for `%B` (lower case; matching is case-insensitive). -/
def monthNamesFull : List (List Char × Nat) :=
  [("january".data, 1), ("february".data, 2), ("march".data, 3), ("april".data, 4),
   ("may".data, 5), ("june".data, 6), ("july".data, 7), ("august".data, 8),
   ("september".data, 9), ("october".data, 10), ("november".data, 11),
   ("december".data, 12)]

/-- Abbreviated month names for `%b`. -/
def monthNamesAbbr : List (List Char × Nat) :=
  [("jan".data, 1), ("feb".data, 2), ("mar".data, 3), ("apr".data, 4),
   ("may".data, 5), ("jun".data, 6), ("jul".data, 7), ("aug".data, 8),
   ("sep".data, 9), ("oct".data, 10), ("nov".data, 11), ("dec".data, 12)]

/-- Find the month name the input starts with; return it and the rest.
(No month name is a prefix of another, so at most one matches.) -/
def findMonthName (names : List (List Char × Nat)) (l : List Char) :
    Option (Nat × List Char) :=
  match names with
  | [] => none
  | (nm, m) :: rest =>
    if listPrefixOf nm l then some (m, l.drop nm.length) else findMonthName rest l

/-- A `'%B %d, %Y'` / `'%b %d, %Y'` format: month name, whitespace, day,
literal comma, whitespace, 4-digit year. -/
def fmtMonthName (names : List (List Char × Nat)) (l : List Char) : Option PDate :=
  let low := l.map Char.toLower
  match findMonthName names low with
  | none => none
  | some (m, rest1) =>
    let rest2 := rest1.dropWhile isPySpace
    if rest2.length = rest1.length then none
    else
      let dpart := rest2.takeWhile (fun c => c ≠ ',')
      match matchD dpart with
      | none => none
      | some d =>
        match rest2.drop dpart.length with
        | ',' :: rest3 =>
          let rest4 := rest3.dropWhile isPySpace
          if rest4.length = rest3.length then none
          else
            match matchY rest4 with
            | some y => mkDate y m d
            | none => none
        | _ => none

/-- `'%Y%m%d'`: four-digit year then `%m%d` with regex backtracking
(the two-digit `%m` alternatives have priority; calendar validation runs
once, on the single match the regex returns). -/
def fmtCompact (l : List Char) : Option PDate :=
  match matchY (l.take 4) with
  | none => none
  | some y =>
    let rest := l.drop 4
    let syn : Option (Nat × Nat) :=
      match rest with
      | a :: b :: rest2 =>
        match matchM2 [a, b], matchD rest2 with
        | some m, some d => some (m, d)
        | _, _ =>
          match matchM1 [a], matchD (b :: rest2) with
          | some m, some d => some (m, d)
          | _, _ => none
      | [a] =>
        match matchM1 [a] with
        | some _ => none
        | none => none
      | [] => none
    match syn with
    | some (m, d) => mkDate y m d
    | none => none

/-- The fixed ordered format list of `_parse_date`. -/
def dateFormats : List (List Char → Option PDate) :=
  [fmtYMDsep '-', fmtMDYsep '/', fmtDMYsep '/', fmtYMDsep '/',
   fmtMDYsep '-', fmtDMYsep '-', fmtMonthName monthNamesFull,
   fmtMonthName monthNamesAbbr, fmtCompact]

/-- First successful format, in list order. -/
def firstSuccess : List (List Char → Option PDate) → List Char → Option PDate
  | [], _ => none
  | f :: fs, l =>
    match f l with
    | some d => some d
    | none => firstSuccess fs l

/-- `TableParser._parse_date` on a string input: strip, reject blank,
then try the formats in order. -/
def parseDateStr (s : String) : Option PDate :=
  let l := pyStripL s.data
  if l.isEmpty then none else firstSuccess dateFormats l

/-- `_parse_date` on a table cell (`None` passes through as `None`). -/
def parseDateCell (c : Option String) : Option PDate := c.bind parseDateStr

/-! ## Amounts: `TableParser._parse_amount` -/

/-- A finite `decimal.Decimal` literal: sign, integer part, fractional
digits and their count. -/
structure DecLit where
  neg : Bool
  ip : Nat
  fp : Nat
  fdigits : Nat
deriving DecidableEq, Repr

/-- Numeric value of a decimal literal. -/
def decValue (l : DecLit) : ℚ :=
  (if l.neg then -1 else 1) * ((l.ip : ℚ) + (l.fp : ℚ) / 10 ^ l.fdigits)

/-- Syntax of `decimal.Decimal(str)` for finite numerals: optional
surrounding whitespace, optional sign, then `digits[.digits]` or
`.digits` (exponent and `NaN`/`Infinity` spellings are not reachable from
the amounts this pipeline feeds in and are modelled as absent). -/
def decParse (l0 : List Char) : Option DecLit :=
  let l := pyStripL l0
  let signed : Bool × List Char :=
    match l with
    | '-' :: rest => (true, rest)
    | '+' :: rest => (false, rest)
    | _ => (false, l)
  match splitOnCh '.' signed.2 with
  | [ipart] =>
    if ipart ≠ [] ∧ ipart.all Char.isDigit then
      some ⟨signed.1, digitsToNat ipart, 0, 0⟩
    else none
  | [ipart, fpart] =>
    if ipart ++ fpart ≠ [] ∧ ipart.all Char.isDigit ∧ fpart.all Char.isDigit then
      some ⟨signed.1, digitsToNat ipart, digitsToNat fpart, fpart.length⟩
    else none
  | _ => none

/-- The string-processing stage of `TableParser._parse_amount`: strip;
record the parenthesized-negative flag; delete `$`, `,`, `(`, `)`
everywhere; a leading `-` also marks negative (and is removed); parse the
remainder as a decimal literal, paired with the final negation flag. -/
def parseAmountSyn (s0 : String) : Option (Bool × DecLit) :=
  let s := pyStripL s0.data
  if s.isEmpty then none
  else
    let isNegParen : Bool := s.head? = some '(' && s.getLast? = some ')'
    let s1 := s.filter (fun c => ¬(c = '$' ∨ c = ',' ∨ c = '(' ∨ c = ')'))
    let signed : Bool × List Char :=
      match s1 with
      | '-' :: rest => (true, rest)
      | _ => (isNegParen, s1)
    match decParse signed.2 with
    | some lit => some (signed.1, lit)
    | none => none

/-- `TableParser._parse_amount` on a string: the parsed decimal value,
negated once when either negative marker was set
(`return -amount if is_negative else amount`). -/
def parseAmountStr (s0 : String) : Option ℚ :=
  match parseAmountSyn s0 with
  | some (neg, lit) => some (if neg then -(decValue lit) else decValue lit)
  | none => none

/-- `_parse_amount` on a table cell (`None` gives `None`). -/
def parseAmountCell (c : Option String) : Option ℚ := c.bind parseAmountStr

/-- `TableParser._parse_boolean`: true for `yes/true/1/y/t`
(case-insensitive, stripped); false otherwise, including `None`. -/
def parseBooleanCell (c : Option String) : Bool :=
  match c with
  | none => false
  | some s =>
    let v := pyLower (pyStrip s)
    v = "yes" ∨ v = "true" ∨ v = "1" ∨ v = "y" ∨ v = "t"

/-! ## Tables: extraction output, classifier, field parsers, validator -/

/-- A pdfplumber table cell: a string or `None`. -/
abbrev Cell := Option String

/-- One extracted table (`extract_tables_from_pdf` output entry). -/
structure RawTable where
  page : Nat
  table_number : Nat
  headers : List Cell
  rows : List (List Cell)
deriving DecidableEq, Repr

/-- Python truthiness of a cell (`if h`): present and non-empty. -/
def cellTruthy : Cell → Bool
  | none => false
  | some s => ¬s.isEmpty

/-- Is a cell `None` or blank after stripping
(`cell is None or str(cell).strip() == ''`)? -/
def cellBlank : Cell → Bool
  | none => true
  | some s => (pyStripL s.data).isEmpty

/-- `TableParser.CAPITAL_CALL_KEYWORDS`. -/
def CAPITAL_CALL_KEYWORDS : List String :=
  ["capital call", "call number", "capital contribution", "capital drawdown"]

/-- `TableParser.DISTRIBUTION_KEYWORDS`. -/
def DISTRIBUTION_KEYWORDS : List String :=
  ["distribution", "return of capital", "dividend", "recallable"]

/-- `TableParser.ADJUSTMENT_KEYWORDS`. -/
def ADJUSTMENT_KEYWORDS : List String :=
  ["adjustment", "rebalance", "recalled distribution", "capital call adjustment"]

/-- The lower-cased text blob `classify_table_type` scans: truthy header
cells joined by spaces, then the truthy cells of the first 5 rows, the
two parts themselves joined by a space. -/
def tableBlob (t : RawTable) : String :=
  pyLower (joinSp
    [joinSp (t.headers.filterMap (fun c => if cellTruthy c then c else none)),
     joinSp ((t.rows.take 5).map
       (fun row => joinSp (row.filterMap (fun c => if cellTruthy c then c else none))))])

/-- `TableParser.classify_table_type`: first keyword family whose member
occurs in the blob wins, in the order capital calls, distributions,
adjustments; `None` when nothing matches. -/
def classifyTableType (t : RawTable) : Option String :=
  let blob := tableBlob t
  if CAPITAL_CALL_KEYWORDS.any (fun k => containsSub blob k) then some "capital_calls"
  else if DISTRIBUTION_KEYWORDS.any (fun k => containsSub blob k) then some "distributions"
  else if ADJUSTMENT_KEYWORDS.any (fun k => containsSub blob k) then some "adjustments"
  else none

/-- Lower-cased stripped headers (`str(h).strip().lower() if h else ''`). -/
def headersLower (t : RawTable) : List String :=
  t.headers.map (fun c =>
    match c with
    | some s => if s.isEmpty then "" else pyLower (pyStrip s)
    | none => "")

/-- `TableParser._find_column_index`: first header containing any of the
keywords (headers outer loop, keywords inner). -/
def findColIdx (keywords : List String) : Nat → List String → Option Nat
  | _, [] => none
  | i, h :: rest =>
    if keywords.any (fun k => containsSub h k) then some i
    else findColIdx keywords (i + 1) rest

/-- A parsed record: the Python dicts the three table parsers and the LLM
fallback produce, modelled as one record with optional fields (absent
dict key = `none`). -/
structure Entry where
  call_date : Option PDate := none
  distribution_date : Option PDate := none
  adjustment_date : Option PDate := none
  call_type : Option String := none
  distribution_type : Option String := none
  adjustment_type : Option String := none
  category : Option String := none
  amount : Option ℚ := none
  is_recallable : Option Bool := none
  is_contribution_adjustment : Option Bool := none
  description : Option String := none
deriving DecidableEq, Repr

/-- `row[i]`: a Python `IndexError` (row shorter than the column index)
becomes `Except.error`, caught by the per-row handler. -/
def rowGet (row : List Cell) (i : Nat) : Except Unit Cell :=
  match row.get? i with
  | some c => .ok c
  | none => .error ()

/-- Cell at an optional column index, `None` when the column was not
found (`row[idx] if idx is not None else None`). -/
def cellAt (idx : Option Nat) (row : List Cell) : Except Unit Cell :=
  match idx with
  | some i => rowGet row i
  | none => pure none

/-- String field with a default
(`str(row[idx]).strip() if idx is not None and row[idx] else dflt`). -/
def strFieldAt (idx : Option Nat) (row : List Cell) (dflt : String) :
    Except Unit String :=
  match idx with
  | some i => do
    let c ← rowGet row i
    pure (match c with
      | some s => if s.isEmpty then dflt else pyStrip s
      | none => dflt)
  | none => pure dflt

/-- One row of `parse_capital_call_table`: build the record dict; any
exception (out-of-range column access) is caught by the caller. -/
def parseCapCallRow (dIdx aIdx tIdx descIdx : Option Nat) (row : List Cell) :
    Except Unit Entry := do
  let dateCell ← cellAt dIdx row
  let callType ← strFieldAt tIdx row "Standard Call"
  let amountCell ← cellAt aIdx row
  let desc ← strFieldAt descIdx row ""
  pure { call_date := parseDateCell dateCell,
         call_type := some callType,
         amount := parseAmountCell amountCell,
         description := some desc }

/-- `TableParser.parse_capital_call_table`: locate columns, then per row
skip empties and blanks, parse, and keep only rows whose date and amount
both parsed (others are dropped with a warning). -/
def parseCapitalCallTable (t : RawTable) : List Entry :=
  let headers := headersLower t
  let dIdx := findColIdx ["date"] 0 headers
  let aIdx := findColIdx ["amount"] 0 headers
  let tIdx := findColIdx ["call number", "type", "call"] 0 headers
  let descIdx := findColIdx ["description", "desc", "notes"] 0 headers
  t.rows.filterMap (fun row =>
    if row.isEmpty then none
    else if row.all cellBlank then none
    else
      match parseCapCallRow dIdx aIdx tIdx descIdx row with
      | .error _ => none
      | .ok e => if e.call_date.isSome ∧ e.amount.isSome then some e else none)

/-- One row of `parse_distribution_table`. -/
def parseDistRow (dIdx aIdx tIdx rIdx descIdx : Option Nat) (row : List Cell) :
    Except Unit Entry := do
  let dateCell ← cellAt dIdx row
  let distType ← strFieldAt tIdx row "Distribution"
  let amountCell ← cellAt aIdx row
  let recallable ←
    match rIdx with
    | some i => do
      let c ← rowGet row i
      pure (parseBooleanCell c)
    | none => pure (parseBooleanCell (some "No"))
  let desc ← strFieldAt descIdx row ""
  pure { distribution_date := parseDateCell dateCell,
         distribution_type := some distType,
         amount := parseAmountCell amountCell,
         is_recallable := some recallable,
         description := some desc }

/-- `TableParser.parse_distribution_table`. -/
def parseDistributionTable (t : RawTable) : List Entry :=
  let headers := headersLower t
  let dIdx := findColIdx ["date"] 0 headers
  let aIdx := findColIdx ["amount"] 0 headers
  let tIdx := findColIdx ["type", "distribution type"] 0 headers
  let rIdx := findColIdx ["recallable", "recall"] 0 headers
  let descIdx := findColIdx ["description", "desc", "notes"] 0 headers
  t.rows.filterMap (fun row =>
    if row.isEmpty then none
    else if row.all cellBlank then none
    else
      match parseDistRow dIdx aIdx tIdx rIdx descIdx row with
      | .error _ => none
      | .ok e => if e.distribution_date.isSome ∧ e.amount.isSome then some e else none)

/-- `TableParser._classify_adjustment_category` (input already
lower-cased by the caller). -/
def classifyAdjustmentCategory (adjType : String) : String :=
  if containsSub adjType "recallable" ∨ containsSub adjType "recalled" then
    "recallable_distribution"
  else if containsSub adjType "capital call" then "capital_call_adjustment"
  else if containsSub adjType "contribution" then "contribution_adjustment"
  else if containsSub adjType "fee" then "fee_adjustment"
  else if containsSub adjType "expense" then "expense_adjustment"
  else "other"

/-- One row of `parse_adjustment_table`. -/
def parseAdjRow (dIdx aIdx tIdx descIdx : Option Nat) (row : List Cell) :
    Except Unit Entry := do
  let adjTypeLow ←
    match tIdx with
    | some i => do
      let c ← rowGet row i
      pure (match c with
        | some s => if s.isEmpty then "" else pyLower (pyStrip s)
        | none => "")
    | none => pure ""
  let dateCell ← cellAt dIdx row
  let adjType ← strFieldAt tIdx row "Adjustment"
  let amountCell ← cellAt aIdx row
  let desc ← strFieldAt descIdx row ""
  pure { adjustment_date := parseDateCell dateCell,
         adjustment_type := some adjType,
         category := some (classifyAdjustmentCategory adjTypeLow),
         amount := parseAmountCell amountCell,
         is_contribution_adjustment :=
           some (containsSub adjTypeLow "capital call" ∨ containsSub adjTypeLow "contribution"),
         description := some desc }

/-- `TableParser.parse_adjustment_table`. -/
def parseAdjustmentTable (t : RawTable) : List Entry :=
  let headers := headersLower t
  let dIdx := findColIdx ["date"] 0 headers
  let aIdx := findColIdx ["amount"] 0 headers
  let tIdx := findColIdx ["type", "adjustment type"] 0 headers
  let descIdx := findColIdx ["description", "desc", "notes"] 0 headers
  t.rows.filterMap (fun row =>
    if row.isEmpty then none
    else if row.all cellBlank then none
    else
      match parseAdjRow dIdx aIdx tIdx descIdx row with
      | .error _ => none
      | .ok e => if e.adjustment_date.isSome ∧ e.amount.isSome then some e else none)

/-- `TableParser.validate_and_clean_data`: per entry, for the known table
types skip entries whose date is missing or whose amount is `None`
(non-positive amounts only produce a log warning and are kept; adjustment
amounts of any sign are kept silently); keep everything else. -/
def validateAndCleanData (data : List Entry) (tableType : String) : List Entry :=
  match data with
  | [] => []
  | e :: rest =>
    let dropped : Bool :=
      if tableType = "capital_calls" then e.call_date.isNone || e.amount.isNone
      else if tableType = "distributions" then e.distribution_date.isNone || e.amount.isNone
      else if tableType = "adjustments" then e.adjustment_date.isNone || e.amount.isNone
      else false
    if dropped then validateAndCleanData rest tableType
    else e :: validateAndCleanData rest tableType

/-! ## Chunker: `DocumentProcessor._split_into_sentences` / `_chunk_text` -/

/-- Does a character end a sentence (`[.!?]` of the split regex)? -/
def isSentEnd : Option Char → Bool
  | some c => c = '.' ∨ c = '!' ∨ c = '?'
  | none => false

/-- `re.split(r'(?<=[.!?])\s+', text)`: cut at every maximal whitespace
run whose preceding character is `.`, `!` or `?`.  `prev` is the
character before the current position (`none` at the start of the text);
when `skipping` is set the matched whitespace run is still being
consumed. -/
def sentSplitGo : Bool → List Char → Option Char → List (List Char)
  | _, [], _ => [[]]
  | skipping, c :: rest, prev =>
    if skipping then
      if isPySpace c then sentSplitGo true rest prev
      else
        match sentSplitGo false rest (some c) with
        | [] => [[c]]
        | p :: ps => (c :: p) :: ps
    else if isPySpace c ∧ isSentEnd prev then
      [] :: sentSplitGo true rest (some ' ')
    else
      match sentSplitGo false rest (some c) with
      | [] => [[c]]
      | p :: ps => (c :: p) :: ps

/-- The pieces of the sentence-splitting regex applied to a text. -/
def sentSplitRaw (l : List Char) : List (List Char) := sentSplitGo false l none

/-- `DocumentProcessor._split_into_sentences`: split, strip each piece,
drop blanks. -/
def splitIntoSentences (s : String) : List String :=
  (sentSplitRaw s.data).filterMap (fun p =>
    let p2 := pyStripL p
    if p2.isEmpty then none else some ⟨p2⟩)

/-- The backward walk computing the overlap seed: over the reversed
closed chunk, keep taking sentences while they still fit in the overlap
budget (`overlap_length + len(sent) <= chunk_overlap`), stopping at the
first that does not; returns the seed in original order and its length. -/
def overlapWalk (ov : Nat) : List String → Nat → List String × Nat
  | [], len => ([], len)
  | s :: rest, len =>
    if len + s.length ≤ ov then
      let r := overlapWalk ov rest (len + s.length)
      (r.1 ++ [s], r.2)
    else ([], len)

/-- The overlap seed of a just-closed chunk (`overlap_sentences`). -/
def overlapSeed (ov : Nat) (chunk : List String) : List String :=
  (overlapWalk ov chunk.reverse 0).1

/-- The sentence-accumulation loop of `_chunk_text` for one page,
returning each emitted chunk as its list of sentences, in emission order
(`current` = `current_chunk`, `curLen` = `current_length`): when adding
the next sentence would exceed the budget and the chunk is non-empty,
close it and seed the successor with the overlap; the final non-empty
chunk is always emitted. -/
def chunkGo (size ov : Nat) : List String → List String → Nat → List (List String)
  | [], current, _ => if current.isEmpty then [] else [current]
  | s :: rest, current, curLen =>
    if curLen + s.length > size ∧ ¬current.isEmpty then
      let seed := overlapWalk ov current.reverse 0
      current :: chunkGo size ov rest (seed.1 ++ [s]) (seed.2 + s.length)
    else
      chunkGo size ov rest (current ++ [s]) (curLen + s.length)

/-- Chunks of one page as sentence lists. -/
def chunkSentences (size ov : Nat) (sentences : List String) : List (List String) :=
  chunkGo size ov sentences [] 0

/-- One page's text with its 1-based page number
(an entry of `_extract_text_content`'s result). -/
structure PageText where
  page : Nat
  text : String
deriving DecidableEq, Repr

/-- An emitted chunk record (`text`, `page`, `chunk_index`, `char_count`). -/
structure Chunk where
  text : String
  page : Nat
  chunk_index : Nat
  char_count : Nat
deriving DecidableEq, Repr

/-- Materialize a page's sentence-list chunks as chunk records: the text
is the space-join of the sentences, `char_count` its length, and the
index counts emissions from 0 on each page. -/
def chunkRecords (page : Nat) : Nat → List (List String) → List Chunk
  | _, [] => []
  | i, cs :: rest =>
    { text := joinSp cs, page := page, chunk_index := i,
      char_count := (joinSp cs).length } :: chunkRecords page (i + 1) rest

/-- `DocumentProcessor._chunk_text` over already-extracted page texts,
parameterized by `settings.CHUNK_SIZE` and `settings.CHUNK_OVERLAP`. -/
def chunkText (size ov : Nat) (pages : List PageText) : List Chunk :=
  pages.flatMap (fun p => chunkRecords p.page 0 (chunkSentences size ov (splitIntoSentences p.text)))

/-- `DocumentProcessor._extract_text_content` applied to the raw
pdfplumber page texts (`None` when `page.extract_text()` returned none):
pages are numbered from 1 and kept when the text is non-empty and does
not strip to blank. -/
def extractTextContent (raw : List (Option String)) : List PageText :=
  raw.enum.filterMap (fun pr =>
    match pr.2 with
    | some s => if s.isEmpty ∨ (pyStripL s.data).isEmpty then none else some ⟨pr.1 + 1, s⟩
    | none => none)

/-! ## Vector store: `VectorStore.add_document` / `similarity_search`

The embedding provider and the SQL layer are external; they appear as
fallible operations in an environment.  Embedding vectors are opaque to
the control flow being verified and are modelled as rational lists. -/

/-- One formatted row of a similarity search result. -/
structure SearchRow where
  id : Nat
  document_id : Nat
  fund_id : Nat
  content : String
  metadata : String
  score : ℚ
deriving DecidableEq, Repr

/-- Environment of a vector-store call: the embedding computation for the
given content/query, the insert statement, and the search statement. -/
structure VSEnv where
  embed : Except String (List ℚ)
  insertRow : List ℚ → Except String Nat
  searchQuery : List ℚ → Except String (List SearchRow)

/-- What happened to the database transaction. -/
inductive DbTxn
  | committed
  | rolledBack
deriving DecidableEq, Repr

/-- `VectorStore.add_document`: embed, insert, commit and return the new
row id; on any exception roll back and re-raise. -/
def addDocument (env : VSEnv) : Except String Nat × DbTxn :=
  match env.embed with
  | .error e => (.error e, .rolledBack)
  | .ok emb =>
    match env.insertRow emb with
    | .error e => (.error e, .rolledBack)
    | .ok rid => (.ok rid, .committed)

/-- `VectorStore.similarity_search`: embed the query and run the search;
any exception is swallowed and the empty result list returned. -/
def similaritySearch (env : VSEnv) : List SearchRow :=
  match env.embed with
  | .error _ => []
  | .ok emb =>
    match env.searchQuery emb with
    | .error _ => []
    | .ok rows => rows

/-! ## Orchestrator: `DocumentProcessor.process_document` -/

/-- The `stats` accumulator, in dict-key order. -/
structure Stats where
  capital_calls : Nat
  distributions : Nat
  adjustments : Nat
  text_chunks : Nat
  tables_found : Nat
  pages_processed : Nat
  errors : List String
deriving DecidableEq, Repr

/-- The zero-initialized stats dict. -/
def initStats : Stats := ⟨0, 0, 0, 0, 0, 0, []⟩

/-- Append an error message to the stats error list. -/
def pushErr (s : Stats) (m : String) : Stats := { s with errors := s.errors ++ [m] }

/-- The parsed result of `extract_data_from_text` (the LLM fallback); the
fallback never returns adjustments, but the key exists. -/
structure LLMData where
  capital_calls : List Entry
  distributions : List Entry
  adjustments : List Entry
deriving Repr

/-- One run's external environment: the pdfplumber table extraction, the
per-table database save, the LLM fallback extraction, the raw per-page
texts, and the per-chunk vector-store insert, plus the configured chunk
sizes.  Pure parsing never raises; the fallible steps are the I/O ones. -/
structure OrchEnv where
  extractTables : Except String (List RawTable)
  saveTable : Nat → Except String Unit
  llmExtract : Except String LLMData
  rawPages : Except String (List (Option String))
  addChunk : Nat → Except String Unit
  chunkSize : Nat
  chunkOverlap : Nat

/-- `f"Error processing table on page {page}: {e}"`. -/
def tableErrMsg (page : Nat) (e : String) : String :=
  "Error processing table on page " ++ toString page ++ ": " ++ e

/-- `f"Error in LLM-based text extraction: {e}"`. -/
def llmErrMsg (e : String) : String := "Error in LLM-based text extraction: " ++ e

/-- `f"Fatal error processing document {file_path}: {e}"` (the file path
is not part of the modelled state). -/
def fatalErrMsg (e : String) : String := "Fatal error processing document: " ++ e

/-- Step 2 body for a single table: classify, parse per category,
validate, save, and add the validated count; a save exception is caught
here, appending to `stats['errors']` without counting. -/
def processOneTable (env : OrchEnv) (idx : Nat) (t : RawTable) (s : Stats) : Stats :=
  match classifyTableType t with
  | none => s
  | some ty =>
    let attempt : Except String Stats :=
      if ty = "capital_calls" then
        let validated := validateAndCleanData (parseCapitalCallTable t) ty
        match env.saveTable idx with
        | .ok _ => .ok { s with capital_calls := s.capital_calls + validated.length }
        | .error e => .error e
      else if ty = "distributions" then
        let validated := validateAndCleanData (parseDistributionTable t) ty
        match env.saveTable idx with
        | .ok _ => .ok { s with distributions := s.distributions + validated.length }
        | .error e => .error e
      else if ty = "adjustments" then
        let validated := validateAndCleanData (parseAdjustmentTable t) ty
        match env.saveTable idx with
        | .ok _ => .ok { s with adjustments := s.adjustments + validated.length }
        | .error e => .error e
      else .ok s
    match attempt with
    | .ok s2 => s2
    | .error e => pushErr s (tableErrMsg t.page e)

/-- The per-table loop of step 2 (`idx` tracks the table's position so
the environment can address each save). -/
def processTablesFrom (env : OrchEnv) : Nat → List RawTable → Stats → Stats
  | _, [], s => s
  | i, t :: rest, s => processTablesFrom env (i + 1) rest (processOneTable env i t s)

/-- Stats after step 1 (`tables_found`) and step 2 (per-table loop). -/
def statsAfterTables (env : OrchEnv) (tables : List RawTable) : Stats :=
  processTablesFrom env 0 tables { initStats with tables_found := tables.length }

/-- Merging the LLM fallback result (step 2.5 body): validate and count
each non-empty list (the database saves of this path are modelled as
succeeding). -/
def applyLLMData (s : Stats) (d : LLMData) : Stats :=
  let s1 :=
    if d.capital_calls.isEmpty then s
    else
      let v := validateAndCleanData d.capital_calls "capital_calls"
      { s with capital_calls := s.capital_calls + v.length }
  if d.distributions.isEmpty then s1
  else
    let v := validateAndCleanData d.distributions "distributions"
    { s1 with distributions := s1.distributions + v.length }

/-- Step 2.5: the fallback is attempted exactly when no tables were found
or both structured counts are zero; its own exception is caught and
recorded.  The second component counts `extract_data_from_text` calls. -/
def fallbackStep (env : OrchEnv) (s : Stats) : Stats × Nat :=
  if s.tables_found = 0 ∨ (s.capital_calls = 0 ∧ s.distributions = 0) then
    match env.llmExtract with
    | .ok d => (applyLLMData s d, 1)
    | .error e => (pushErr s (llmErrMsg e), 1)
  else (s, 0)

/-- Stats and LLM-invocation count after steps 1-2.5. -/
def statsAfterFallback (env : OrchEnv) (tables : List RawTable) : Stats × Nat :=
  fallbackStep env (statsAfterTables env tables)

/-- Step 5's loop: add each chunk to the vector store; the first
exception aborts the loop and propagates (caught only by the outer
handler). -/
def addAllChunks (env : OrchEnv) : Nat → List Chunk → Except String Unit
  | _, [] => .ok ()
  | i, _ :: rest =>
    match env.addChunk i with
    | .ok _ => addAllChunks env (i + 1) rest
    | .error e => .error e

/-- `process_document`'s return value plus the status transition it
requested from `_update_document_status` and the number of LLM fallback
invocations. -/
structure OrchResult where
  success : Bool
  stats : Stats
  statusSet : String × Option String
  llmCalls : Nat
deriving DecidableEq, Repr

/-- The success exit: status `completed` with no error message. -/
def completedResult (s : Stats) (n : Nat) : OrchResult :=
  ⟨true, s, ("completed", none), n⟩

/-- The failure exit: append the fatal message to the stats gathered so
far and request status `failed` with that message. -/
def failedResult (s : Stats) (e : String) (n : Nat) : OrchResult :=
  ⟨false, pushErr s (fatalErrMsg e), ("failed", some (fatalErrMsg e)), n⟩

/-- `DocumentProcessor.process_document`: extract tables, process each,
conditionally run the LLM fallback, extract and chunk text, store every
chunk, then report `completed`; any uncaught exception ends the run with
`failed` and the stats gathered so far. -/
def processDocument (env : OrchEnv) : OrchResult :=
  match env.extractTables with
  | .error e => failedResult initStats e 0
  | .ok tables =>
    let fb := statsAfterFallback env tables
    match env.rawPages with
    | .error e => failedResult fb.1 e fb.2
    | .ok raw =>
      let pages := extractTextContent raw
      let s4 := { fb.1 with pages_processed := pages.length }
      let chunks := chunkText env.chunkSize env.chunkOverlap pages
      let s5 := { s4 with text_chunks := chunks.length }
      match addAllChunks env 0 chunks with
      | .error e => failedResult s5 e fb.2
      | .ok _ => completedResult s5 fb.2

/-- The stats accumulated up to (and excluding) the first fatal
exception, step by step as `process_document` builds them; equals the
full stats when no step fails. -/
def statsBeforeFatal (env : OrchEnv) : Stats :=
  match env.extractTables with
  | .error _ => initStats
  | .ok tables =>
    let fb := statsAfterFallback env tables
    match env.rawPages with
    | .error _ => fb.1
    | .ok raw =>
      let pages := extractTextContent raw
      let s4 := { fb.1 with pages_processed := pages.length }
      let chunks := chunkText env.chunkSize env.chunkOverlap pages
      { s4 with text_chunks := chunks.length }

/-! ## Concrete instances used by the theorems below -/

/-- A clearly headed capital-call table with two valid rows. -/
def capTable : RawTable :=
  { page := 1, table_number := 1,
    headers := [some "Date", some "Call Number", some "Amount", some "Description"],
    rows := [[some "2023-01-15", some "1", some "$1,000,000", some "First call"],
             [some "2023-02-15", some "2", some "$500,000", some "Second call"]] }

/-- A 2-page PDF run containing exactly the capital-call table above, no
distribution table, and no failing external step. -/
def envC1 : OrchEnv :=
  { extractTables := .ok [capTable],
    saveTable := fun _ => .ok (),
    llmExtract := .ok ⟨[], [], []⟩,
    rawPages := .ok [some "Fund report page one. It has text.",
                     some "Fund report page two. More text."],
    addChunk := fun _ => .ok (),
    chunkSize := 1000,
    chunkOverlap := 200 }

/-- A run identical to `envC1` except that the text-extraction step
raises (used to exercise the failure path of the orchestrator). -/
def envC2fail : OrchEnv :=
  { envC1 with rawPages := .error "pdf went away" }

/-- A 50-character sentence of `a`s. -/
def c3SentA : String := ⟨List.replicate 49 'a' ++ ['.']⟩

/-- A 50-character sentence of `b`s. -/
def c3SentB : String := ⟨List.replicate 49 'b' ++ ['.']⟩

/-- A page text whose first two sentences sum to exactly a configured
chunk budget of 100 characters, so the joining space pushes the emitted
chunk to 101 characters. -/
def c3Text : String := c3SentA ++ " " ++ c3SentB ++ " " ++ "c."

/-- A 90-character sentence of `a`s. -/
def c4Sent1 : String := ⟨List.replicate 89 'a' ++ ['.']⟩

/-- A 30-character sentence of `b`s. -/
def c4Sent2 : String := ⟨List.replicate 29 'b' ++ ['.']⟩

/-- A page text whose first chunk closes with 90 characters of content:
more than a configured overlap budget of 20, yet too long for any
trailing sentence to fit in the overlap seed. -/
def c4Text : String := c4Sent1 ++ " " ++ c4Sent2 ++ " " ++ "c."

/-- A table whose blob contains both a capital-call keyword and a
distribution keyword. -/
def bothKwTable : RawTable :=
  { page := 1, table_number := 1,
    headers := [some "Capital Call and Distribution Schedule"],
    rows := [[some "2023-01-15", some "$100"]] }

/-- A table whose blob contains only an adjustment keyword. -/
def adjOnlyTable : RawTable :=
  { page := 1, table_number := 1,
    headers := [some "Adjustment Type", some "Date", some "Amount"],
    rows := [[some "Fee rebate", some "2023-01-15", some "$100"]] }

/-- A vector-store call whose embedding step raises. -/
def vsEmbedFailEnv : VSEnv :=
  { embed := .error "embedding backend down",
    insertRow := fun _ => .ok 1,
    searchQuery := fun _ => .ok [] }

/-- A vector-store call whose embedding succeeds but whose SQL statement
raises. -/
def vsSqlFailEnv : VSEnv :=
  { embed := .ok [1, 0, 0],
    insertRow := fun _ => .error "insert failed",
    searchQuery := fun _ => .error "search failed" }

/-- A parsed capital-call record with a date and a negative amount. -/
def negAmountEntry : Entry :=
  { call_date := some ⟨2023, 1, 15⟩, call_type := some "Standard Call",
    amount := some (-5), description := some "correction" }

/-! ## Bridge lemmas for the substring test -/

theorem listPrefixOf_iff : ∀ n h : List Char, listPrefixOf n h = true ↔ n <+: h
  | [], h => by simp [listPrefixOf]
  | a :: as, [] => by simp [listPrefixOf]
  | a :: as, b :: bs => by
    rw [List.cons_prefix_cons]
    simp only [listPrefixOf, Bool.and_eq_true, beq_iff_eq]
    exact and_congr Iff.rfl (listPrefixOf_iff as bs)

theorem listSubOf_iff : ∀ (n h : List Char), listSubOf n h = true ↔ n <:+: h
  | n, [] => by
    simp [listSubOf, List.isEmpty_iff, List.infix_nil]
  | n, b :: bs => by
    simp only [listSubOf, Bool.or_eq_true, List.infix_cons_iff]
    exact or_congr (listPrefixOf_iff n (b :: bs)) (listSubOf_iff n bs)

/-- Transitivity of the substring test: if `b` occurs in `a` and `c`
occurs in `b`, then `c` occurs in `a`. -/
theorem containsSub_trans {a b c : String} (h1 : containsSub a b = true)
    (h2 : containsSub b c = true) : containsSub a c = true := by
  rw [containsSub, listSubOf_iff] at h1 h2 ⊢
  exact List.IsInfix.trans h2 h1

/-! ## Claim C5: classifier precedence -/

/-- Claim C5: `classify_table_type` is first-match order-sensitive with
precedence capital call, then distribution, then adjustment: a blob
containing any capital-call keyword (in particular one containing both
"capital call" and "distribution") classifies as `capital_calls`; a blob
with a distribution keyword and no capital-call keyword classifies as
`distributions`; a blob with an adjustment keyword and neither of the
other families classifies as `adjustments`. -/
theorem claim_C5_classifier_precedence :
    (∀ t : RawTable, containsSub (tableBlob t) "capital call" = true →
      containsSub (tableBlob t) "distribution" = true →
      classifyTableType t = some "capital_calls") ∧
    (∀ t : RawTable,
      CAPITAL_CALL_KEYWORDS.any (fun k => containsSub (tableBlob t) k) = true →
      classifyTableType t = some "capital_calls") ∧
    (∀ t : RawTable,
      CAPITAL_CALL_KEYWORDS.any (fun k => containsSub (tableBlob t) k) = false →
      DISTRIBUTION_KEYWORDS.any (fun k => containsSub (tableBlob t) k) = true →
      classifyTableType t = some "distributions") ∧
    (∀ t : RawTable,
      CAPITAL_CALL_KEYWORDS.any (fun k => containsSub (tableBlob t) k) = false →
      DISTRIBUTION_KEYWORDS.any (fun k => containsSub (tableBlob t) k) = false →
      ADJUSTMENT_KEYWORDS.any (fun k => containsSub (tableBlob t) k) = true →
      classifyTableType t = some "adjustments") := by
  refine ⟨fun t hc _ => ?_, fun t hc => ?_, fun t hc hd => ?_, fun t hc hd ha => ?_⟩
  · have : CAPITAL_CALL_KEYWORDS.any (fun k => containsSub (tableBlob t) k) = true :=
      List.any_eq_true.mpr ⟨"capital call", by simp [CAPITAL_CALL_KEYWORDS], hc⟩
    simp only [classifyTableType, this, if_true]
  · simp only [classifyTableType, hc, if_true]
  · simp only [classifyTableType, hc, hd, Bool.false_eq_true, if_false, if_true]
  · simp only [classifyTableType, hc, hd, ha, Bool.false_eq_true, if_false, if_true]

/-- Witness for C5 at a concrete table containing both a capital-call
keyword and a distribution keyword. -/
theorem claim_C5_witness :
    classifyTableType bothKwTable = some "capital_calls" :=
  claim_C5_classifier_precedence.1 bothKwTable (by decide) (by decide)

/-! ## Claim C9: vector-store error asymmetry -/

/-- Claim C9: on an embedding or storage failure the two vector-store
operations behave asymmetrically: `add_document` rolls the transaction
back and re-raises the exception, while `similarity_search` swallows
every exception and returns the empty list; on success `add_document`
commits and returns the new row id. -/
theorem claim_C9_error_asymmetry :
    (∀ (env : VSEnv) (e : String), env.embed = .error e →
      addDocument env = (.error e, .rolledBack) ∧ similaritySearch env = []) ∧
    (∀ (env : VSEnv) (emb : List ℚ) (e : String), env.embed = .ok emb →
      env.insertRow emb = .error e → addDocument env = (.error e, .rolledBack)) ∧
    (∀ (env : VSEnv) (emb : List ℚ) (e : String), env.embed = .ok emb →
      env.searchQuery emb = .error e → similaritySearch env = []) ∧
    (∀ (env : VSEnv) (emb : List ℚ) (rid : Nat), env.embed = .ok emb →
      env.insertRow emb = .ok rid → addDocument env = (.ok rid, .committed)) := by
  refine ⟨fun env e he => ?_, fun env emb e he hi => ?_,
    fun env emb e he hs => ?_, fun env emb rid he hi => ?_⟩
  · exact ⟨by simp [addDocument, he], by simp [similaritySearch, he]⟩
  · simp [addDocument, he, hi]
  · simp [similaritySearch, he, hs]
  · simp [addDocument, he, hi]

/-- Witness for C9 at two concrete environments: an embedding failure
(raised by `add`, swallowed by `search`) and an SQL failure. -/
theorem claim_C9_witness :
    (addDocument vsEmbedFailEnv = (.error "embedding backend down", .rolledBack) ∧
      similaritySearch vsEmbedFailEnv = []) ∧
    addDocument vsSqlFailEnv = (.error "insert failed", .rolledBack) ∧
    similaritySearch vsSqlFailEnv = [] :=
  ⟨claim_C9_error_asymmetry.1 vsEmbedFailEnv "embedding backend down" rfl,
   claim_C9_error_asymmetry.2.1 vsSqlFailEnv [1, 0, 0] "insert failed" rfl rfl,
   claim_C9_error_asymmetry.2.2.1 vsSqlFailEnv [1, 0, 0] "search failed" rfl rfl⟩

/-! ## Claim C10: the two compound adjustment keywords are unreachable -/

/-- Claim C10: `classify_table_type` can never return `adjustments` by
virtue of the keywords "recalled distribution" or "capital call
adjustment": each contains an earlier-checked keyword as a substring, so
an adjustment classification forces "adjustment" or "rebalance" to occur
in the blob, with no capital-call and no distribution keyword present. -/
theorem claim_C10_adjustment_keywords_shadowed :
    ∀ t : RawTable, classifyTableType t = some "adjustments" →
      (containsSub (tableBlob t) "adjustment" = true ∨
        containsSub (tableBlob t) "rebalance" = true) ∧
      (∀ k ∈ CAPITAL_CALL_KEYWORDS, containsSub (tableBlob t) k = false) ∧
      (∀ k ∈ DISTRIBUTION_KEYWORDS, containsSub (tableBlob t) k = false) := by
  intro t hcl
  rw [classifyTableType] at hcl
  rcases hcap : CAPITAL_CALL_KEYWORDS.any (fun k => containsSub (tableBlob t) k) with _ | _
  case true => simp [hcap] at hcl
  rcases hdist : DISTRIBUTION_KEYWORDS.any (fun k => containsSub (tableBlob t) k) with _ | _
  case true => simp [hcap, hdist] at hcl
  rcases hadj : ADJUSTMENT_KEYWORDS.any (fun k => containsSub (tableBlob t) k) with _ | _
  case false => simp [hcap, hdist, hadj] at hcl
  have hcap' := List.any_eq_false.mp hcap
  have hdist' := List.any_eq_false.mp hdist
  refine ⟨?_, fun k hk => Bool.not_eq_true _ ▸ by simpa using hcap' k hk,
    fun k hk => by simpa using hdist' k hk⟩
  rcases List.any_eq_true.mp hadj with ⟨k, hk, hsub⟩
  have hk' : k = "adjustment" ∨ k = "rebalance" ∨ k = "recalled distribution" ∨
      k = "capital call adjustment" := by simpa [ADJUSTMENT_KEYWORDS] using hk
  rcases hk' with rfl | rfl | rfl | rfl
  · exact Or.inl hsub
  · exact Or.inr hsub
  · exfalso
    have : containsSub (tableBlob t) "distribution" = true :=
      containsSub_trans hsub (by decide)
    have := hdist' "distribution" (by simp [DISTRIBUTION_KEYWORDS])
    simp_all
  · exfalso
    have : containsSub (tableBlob t) "capital call" = true :=
      containsSub_trans hsub (by decide)
    have := hcap' "capital call" (by simp [CAPITAL_CALL_KEYWORDS])
    simp_all

/-- Witness for C10 at a concrete table that does classify as an
adjustment table. -/
theorem claim_C10_witness :
    (containsSub (tableBlob adjOnlyTable) "adjustment" = true ∨
      containsSub (tableBlob adjOnlyTable) "rebalance" = true) ∧
    (∀ k ∈ CAPITAL_CALL_KEYWORDS, containsSub (tableBlob adjOnlyTable) k = false) ∧
    (∀ k ∈ DISTRIBUTION_KEYWORDS, containsSub (tableBlob adjOnlyTable) k = false) :=
  claim_C10_adjustment_keywords_shadowed adjOnlyTable (by decide)

/-! ## Claim C8: the validator drops exactly the date/amount-less records -/

/-- Claim C8: for every record list, `validate_and_clean_data` keeps
exactly the records whose category date is present and whose amount is
non-null; in particular a capital-call or distribution record with a
non-positive amount is retained (the sign check only logs), and
adjustment records of any sign are retained. -/
theorem claim_C8_validator_filter :
    (∀ data : List Entry, validateAndCleanData data "capital_calls" =
      data.filter (fun e => e.call_date.isSome && e.amount.isSome)) ∧
    (∀ data : List Entry, validateAndCleanData data "distributions" =
      data.filter (fun e => e.distribution_date.isSome && e.amount.isSome)) ∧
    (∀ data : List Entry, validateAndCleanData data "adjustments" =
      data.filter (fun e => e.adjustment_date.isSome && e.amount.isSome)) ∧
    (∀ (data : List Entry) (e : Entry), e ∈ data → e.call_date.isSome = true →
      e.amount.isSome = true → e ∈ validateAndCleanData data "capital_calls") := by
  have hcc : ∀ data : List Entry, validateAndCleanData data "capital_calls" =
      data.filter (fun e => e.call_date.isSome && e.amount.isSome) := by
    intro data
    induction data with
    | nil => rfl
    | cons e rest ih =>
      simp only [validateAndCleanData, List.filter_cons, ih]
      cases hc : e.call_date <;> cases ha : e.amount <;>
        simp [hc, ha, Option.isNone, Option.isSome]
  refine ⟨hcc, fun data => ?_, fun data => ?_, fun data e hmem hd ha => ?_⟩
  · induction data with
    | nil => rfl
    | cons e rest ih =>
      simp only [validateAndCleanData, List.filter_cons, ih]
      cases hc : e.distribution_date <;> cases hA : e.amount <;>
        simp [hc, hA, Option.isNone, Option.isSome]
  · induction data with
    | nil => rfl
    | cons e rest ih =>
      simp only [validateAndCleanData, List.filter_cons, ih]
      cases hc : e.adjustment_date <;> cases hA : e.amount <;>
        simp [hc, hA, Option.isNone, Option.isSome]
  · rw [hcc]
    exact List.mem_filter.mpr ⟨hmem, by simp [hd, ha]⟩

/-- Witness for C8: a capital-call record with a negative amount (and a
date) survives validation. -/
theorem claim_C8_witness :
    negAmountEntry ∈ validateAndCleanData [negAmountEntry] "capital_calls" :=
  claim_C8_validator_filter.2.2.2 [negAmountEntry] negAmountEntry (by simp)
    (by simp [negAmountEntry]) (by simp [negAmountEntry])

/-! ## Claim C6: amount parsing -/

/-- Claim C6: the four documented examples of `_parse_amount`, and the
single-negation law: whenever the stripped input is parenthesized and the
symbol-stripped remainder still carries a leading minus, the parsed value
is the decimal's negation applied exactly once (e.g. `"(-500)" ↦ -500`,
not `500`). -/
theorem claim_C6_parse_amount :
    parseAmountStr "$1,000,000.00" = some 1000000 ∧
    parseAmountStr "(500,000)" = some (-500000) ∧
    parseAmountStr "-$500,000" = some (-500000) ∧
    parseAmountStr "not-a-number" = none ∧
    parseAmountStr "(-500)" = some (-500) ∧
    (∀ (s : String) (rest : List Char),
      (pyStripL s.data).head? = some '(' →
      (pyStripL s.data).getLast? = some ')' →
      (pyStripL s.data).filter (fun c => ¬(c = '$' ∨ c = ',' ∨ c = '(' ∨ c = ')')) =
        '-' :: rest →
      parseAmountStr s = (decParse rest).map (fun lit => -(decValue lit))) := by
  refine ⟨?_, ?_, ?_, ?_, ?_, ?_⟩
  · rw [parseAmountStr,
      show parseAmountSyn "$1,000,000.00" = some (false, ⟨false, 1000000, 0, 2⟩) from by decide]
    norm_num [decValue]
  · rw [parseAmountStr,
      show parseAmountSyn "(500,000)" = some (true, ⟨false, 500000, 0, 0⟩) from by decide]
    norm_num [decValue]
  · rw [parseAmountStr,
      show parseAmountSyn "-$500,000" = some (true, ⟨false, 500000, 0, 0⟩) from by decide]
    norm_num [decValue]
  · rw [parseAmountStr, show parseAmountSyn "not-a-number" = none from by decide]
  · rw [parseAmountStr,
      show parseAmountSyn "(-500)" = some (true, ⟨false, 500, 0, 0⟩) from by decide]
    norm_num [decValue]
  · intro s rest hhead hlast hfilter
    have hne : (pyStripL s.data).isEmpty = false := by
      cases h : pyStripL s.data with
      | nil => rw [h] at hhead; simp at hhead
      | cons a l => simp [h]
    rw [parseAmountStr, parseAmountSyn, hne]
    simp only [Bool.false_eq_true, if_false, hfilter]
    cases hdp : decParse rest <;> simp [hdp]

/-- Witness for C6's single-negation law at `"(-500)"`. -/
theorem claim_C6_witness :
    parseAmountStr "(-500)" = (decParse ['5', '0', '0']).map (fun lit => -(decValue lit)) :=
  claim_C6_parse_amount.2.2.2.2.2 "(-500)" ['5', '0', '0'] (by decide) (by decide) (by decide)

/-! ## Claim C7: date parsing order -/

/-- Claim C7: `_parse_date` tries the fixed ordered format list and
returns the first success: the documented examples parse to the correct
calendar dates; the ambiguous `"03-04-2023"` resolves month-first to
March 4 (not April 3) because `%m-%d-%Y` precedes `%d-%m-%Y`; blank
input and input matching no listed format give `None`; and whenever the
four formats before `%m-%d-%Y` fail while `%m-%d-%Y` succeeds, its parse
is the overall result. -/
theorem claim_C7_parse_date_order :
    parseDateStr "2023-01-15" = some ⟨2023, 1, 15⟩ ∧
    parseDateStr "01/15/2023" = some ⟨2023, 1, 15⟩ ∧
    parseDateStr "03-04-2023" = some ⟨2023, 3, 4⟩ ∧
    parseDateStr "03-04-2023" ≠ some ⟨2023, 4, 3⟩ ∧
    parseDateStr "invalid-date" = none ∧
    (∀ s : String, (pyStripL s.data).isEmpty = true → parseDateStr s = none) ∧
    (∀ s : String, (∀ f ∈ dateFormats, f (pyStripL s.data) = none) →
      parseDateStr s = none) ∧
    (∀ (s : String) (d : PDate),
      fmtYMDsep '-' (pyStripL s.data) = none →
      fmtMDYsep '/' (pyStripL s.data) = none →
      fmtDMYsep '/' (pyStripL s.data) = none →
      fmtYMDsep '/' (pyStripL s.data) = none →
      fmtMDYsep '-' (pyStripL s.data) = some d →
      parseDateStr s = some d) := by
  refine ⟨by decide, by decide, by decide, by decide, by decide,
    fun s hs => ?_, fun s hall => ?_, fun s d h1 h2 h3 h4 h5 => ?_⟩
  · rw [parseDateStr, hs]
    simp
  · rw [parseDateStr]
    rcases he : (pyStripL s.data).isEmpty with _ | _
    case false =>
      simp only [Bool.false_eq_true, if_false]
      simp only [dateFormats, List.mem_cons, List.not_mem_nil, or_false,
        forall_eq_or_imp, forall_eq] at hall
      obtain ⟨g1, g2, g3, g4, g5, g6, g7, g8, g9⟩ := hall
      simp [firstSuccess, dateFormats, g1, g2, g3, g4, g5, g6, g7, g8, g9]
    case true => simp
  · rw [parseDateStr]
    rcases he : (pyStripL s.data).isEmpty with _ | _
    case true =>
      rw [List.isEmpty_iff] at he
      rw [he] at h5
      simp [fmtMDYsep, splitOnCh] at h5
    case false =>
      simp only [Bool.false_eq_true, if_false]
      simp [firstSuccess, dateFormats, h1, h2, h3, h4, h5]

/-- Witness for C7's conditional clauses, at a blank input, an
unparseable input, and the ambiguous `"03-04-2023"`. -/
theorem claim_C7_witness :
    parseDateStr " " = none ∧
    parseDateStr "13/33/20" = none ∧
    parseDateStr "03-04-2023" = some ⟨2023, 3, 4⟩ :=
  ⟨claim_C7_parse_date_order.2.2.2.2.2.1 " " (by decide),
   claim_C7_parse_date_order.2.2.2.2.2.2.1 "13/33/20" (by decide),
   claim_C7_parse_date_order.2.2.2.2.2.2.2 "03-04-2023" ⟨2023, 3, 4⟩
     (by decide) (by decide) (by decide) (by decide) (by decide)⟩

/-! ## Chunker lemmas -/

/-- `len(' '.join(cs))` counts the sentence characters plus one joining
space per sentence boundary. -/
theorem joinSp_length : ∀ cs : List String, (joinSp cs).length = sumLen cs + cs.length - 1
  | [] => rfl
  | [s] => by simp [joinSp, sumLen]
  | s :: t :: rest => by
    have ih := joinSp_length (t :: rest)
    have hsp : (" " : String).length = 1 := rfl
    rw [show joinSp (s :: t :: rest) = s ++ " " ++ joinSp (t :: rest) from rfl,
      String.length_append, String.length_append, hsp, ih]
    simp only [sumLen, List.map_cons, List.sum_cons, List.length_cons]
    omega

/-- Appending one sentence adds its length to the total. -/
theorem sumLen_append_single (l : List String) (s : String) :
    sumLen (l ++ [s]) = sumLen l + s.length := by
  simp [sumLen]

/-- The accumulator of the overlap walk is the running total of the
sentences it has taken. -/
theorem overlapWalk_snd_eq (ov : Nat) :
    ∀ (r : List String) (len : Nat),
      (overlapWalk ov r len).2 = len + sumLen (overlapWalk ov r len).1
  | [], len => by simp [overlapWalk, sumLen]
  | s :: rest, len => by
    rw [overlapWalk]
    rcases h : decide (len + s.length ≤ ov) with _ | _
    case false =>
      have h' : ¬(len + s.length ≤ ov) := of_decide_eq_false h
      simp [h', sumLen]
    case true =>
      have h' : len + s.length ≤ ov := of_decide_eq_true h
      have ih := overlapWalk_snd_eq ov rest (len + s.length)
      simp only [h', if_true, sumLen_append_single]
      omega

/-- The overlap walk never accumulates beyond the overlap budget
(starting from a total within budget). -/
theorem overlapWalk_snd_le (ov : Nat) :
    ∀ (r : List String) (len : Nat), len ≤ ov → (overlapWalk ov r len).2 ≤ ov
  | [], len, h => by simpa [overlapWalk] using h
  | s :: rest, len, h => by
    rw [overlapWalk]
    rcases hc : decide (len + s.length ≤ ov) with _ | _
    case false =>
      have h' : ¬(len + s.length ≤ ov) := of_decide_eq_false hc
      simpa [h'] using h
    case true =>
      have h' : len + s.length ≤ ov := of_decide_eq_true hc
      simpa [h'] using overlapWalk_snd_le ov rest (len + s.length) h'

/-- The overlap seed's character total is within the overlap budget. -/
theorem overlapSeed_sumLen_le (ov : Nat) (c : List String) :
    sumLen (overlapSeed ov c) ≤ ov := by
  have h1 := overlapWalk_snd_eq ov c.reverse 0
  have h2 := overlapWalk_snd_le ov c.reverse 0 (Nat.zero_le ov)
  rw [h1] at h2
  simpa [overlapSeed] using h2

/-- The walked input splits as the reversed seed followed by a rest. -/
theorem overlapWalk_split (ov : Nat) :
    ∀ (r : List String) (len : Nat),
      ∃ rest, r = (overlapWalk ov r len).1.reverse ++ rest
  | [], len => ⟨[], by simp [overlapWalk]⟩
  | s :: rest, len => by
    rw [overlapWalk]
    rcases hc : decide (len + s.length ≤ ov) with _ | _
    case false =>
      have h' : ¬(len + s.length ≤ ov) := of_decide_eq_false hc
      exact ⟨s :: rest, by simp [h']⟩
    case true =>
      have h' : len + s.length ≤ ov := of_decide_eq_true hc
      obtain ⟨tail, ht⟩ := overlapWalk_split ov rest (len + s.length)
      refine ⟨tail, ?_⟩
      simp only [h', if_true, List.reverse_append, List.reverse_cons,
        List.reverse_nil, List.nil_append]
      rw [List.cons_append]
      exact congrArg (s :: ·) ht

/-- The overlap seed is a suffix of the closed chunk it was walked from. -/
theorem overlapSeed_suffix (ov : Nat) (c : List String) :
    overlapSeed ov c <:+ c := by
  obtain ⟨rest, hr⟩ := overlapWalk_split ov c.reverse 0
  refine ⟨rest.reverse, ?_⟩
  have := congrArg List.reverse hr
  simpa [overlapSeed] using this.symm

/-- Loop invariant of `chunkGo`: every emitted chunk either fits the
chunk budget (counting sentence characters, as `current_length` does) or
consists of an overlap seed within the overlap budget followed by
exactly one sentence. -/
theorem chunkGo_mem_inv (size ov : Nat) :
    ∀ (sents current : List String) (curLen : Nat),
      curLen = sumLen current →
      (current = [] ∨ sumLen current ≤ size ∨
        ∃ pre s, current = pre ++ [s] ∧ sumLen pre ≤ ov) →
      ∀ c ∈ chunkGo size ov sents current curLen,
        sumLen c ≤ size ∨ ∃ pre s, c = pre ++ [s] ∧ sumLen pre ≤ ov
  | [], current, curLen, hlen, hinv, c, hc => by
    rw [chunkGo] at hc
    rcases he : current.isEmpty with _ | _
    case true => simp [he] at hc
    case false =>
      rw [he] at hc
      simp only [Bool.false_eq_true, if_false, List.mem_singleton] at hc
      subst hc
      rcases hinv with h | h
      · rw [h] at he; simp at he
      · exact h
  | s :: rest, current, curLen, hlen, hinv, c, hc => by
    rw [chunkGo] at hc
    by_cases hcl : curLen + s.length > size ∧ ¬current.isEmpty
    · rw [if_pos hcl] at hc
      rcases List.mem_cons.mp hc with rfl | hmem
      · rcases hinv with h | h
        · rw [h] at hcl; simp at hcl
        · exact h
      · refine chunkGo_mem_inv size ov rest _ _ ?_ ?_ c hmem
        · rw [sumLen_append_single]
          have := overlapWalk_snd_eq ov current.reverse 0
          simpa [overlapSeed] using congrArg (· + s.length) this
        · exact Or.inr (Or.inr ⟨(overlapWalk ov current.reverse 0).1, s, rfl,
            overlapSeed_sumLen_le ov current⟩)
    · rw [if_neg hcl] at hc
      refine chunkGo_mem_inv size ov rest _ _ ?_ ?_ c hc
      · rw [sumLen_append_single, hlen]
      · rcases current with _ | ⟨c0, cur'⟩
        · exact Or.inr (Or.inr ⟨[], s, rfl, by simp [sumLen]⟩)
        · have hfit : ¬curLen + s.length > size := fun hgt => hcl ⟨hgt, by simp⟩
          refine Or.inr (Or.inl ?_)
          rw [sumLen_append_single, ← hlen]
          omega

/-- Every chunk record of a page carries the join and length of one of
the page's sentence-list chunks. -/
theorem chunkRecords_mem :
    ∀ (L : List (List String)) (page i : Nat) (c : Chunk),
      c ∈ chunkRecords page i L →
      ∃ cs ∈ L, c.text = joinSp cs ∧ c.char_count = (joinSp cs).length
  | [], _, _, _, hc => by simp [chunkRecords] at hc
  | cs :: rest, page, i, c, hc => by
    rw [chunkRecords] at hc
    rcases List.mem_cons.mp hc with rfl | hmem
    · exact ⟨cs, List.mem_cons_self cs rest, rfl, rfl⟩
    · obtain ⟨cs', h1, h2, h3⟩ := chunkRecords_mem rest page (i + 1) c hmem
      exact ⟨cs', List.mem_cons_of_mem cs h1, h2, h3⟩

/-- Chaining invariant of `chunkGo`: each emitted chunk's overlap seed is
a prefix of the next emitted chunk, and the entry `current` is a prefix
of the first emitted chunk. -/
theorem chunkGo_chain (size ov : Nat) :
    ∀ (sents current : List String) (curLen : Nat),
      List.Chain' (fun c c' => overlapSeed ov c <+: c')
        (chunkGo size ov sents current curLen) ∧
      (∀ c0 rest, chunkGo size ov sents current curLen = c0 :: rest → current <+: c0)
  | [], current, curLen => by
    rw [chunkGo]
    rcases he : current.isEmpty with _ | _
    · refine ⟨by simp, fun c0 rest heq => ?_⟩
      simp only [Bool.false_eq_true, if_false, List.cons.injEq] at heq
      rw [heq.1]
    · exact ⟨by simp, fun c0 rest heq => by simp at heq⟩
  | s :: rest, current, curLen => by
    rw [chunkGo]
    by_cases hcl : curLen + s.length > size ∧ ¬current.isEmpty
    · rw [if_pos hcl]
      have hlet : (let seed := overlapWalk ov current.reverse 0;
          current :: chunkGo size ov rest (seed.1 ++ [s]) (seed.2 + s.length)) =
          current :: chunkGo size ov rest ((overlapWalk ov current.reverse 0).1 ++ [s])
            ((overlapWalk ov current.reverse 0).2 + s.length) := rfl
      rw [hlet]
      obtain ⟨ihchain, ihhead⟩ :=
        chunkGo_chain size ov rest ((overlapWalk ov current.reverse 0).1 ++ [s])
          ((overlapWalk ov current.reverse 0).2 + s.length)
      constructor
      · rcases hout : chunkGo size ov rest ((overlapWalk ov current.reverse 0).1 ++ [s])
            ((overlapWalk ov current.reverse 0).2 + s.length) with _ | ⟨c0, out'⟩
        · exact List.chain'_singleton current
        · rw [hout] at ihchain
          refine List.Chain'.cons ?_ ihchain
          have h1 := ihhead c0 out' hout
          exact List.IsPrefix.trans
            (List.prefix_append (overlapWalk ov current.reverse 0).1 [s]) h1
      · intro c0 rest' heq
        rw [List.cons.injEq] at heq
        rw [heq.1]
    · rw [if_neg hcl]
      obtain ⟨ihchain, ihhead⟩ :=
        chunkGo_chain size ov rest (current ++ [s]) (curLen + s.length)
      refine ⟨ihchain, fun c0 rest' heq => ?_⟩
      exact List.IsPrefix.trans (List.prefix_append current [s]) (ihhead c0 rest' heq)

/-! ## Claim C3: chunk size bound -/

/-- Claim C3 (amended): every chunk a page yields has
`char_count = (sentence characters) + (sentences - 1)` joining spaces,
and its sentence characters fit the chunk budget unless the chunk is an
overlap seed (within the overlap budget, possibly empty) followed by
exactly one sentence — the lone-oversize-sentence case is the empty-seed
instance.  `char_count` itself may exceed the configured chunk size by
the joining spaces, which the budget check does not count. -/
theorem claim_C3_chunk_size_bound :
    ∀ (size ov : Nat) (pages : List PageText) (c : Chunk), c ∈ chunkText size ov pages →
      ∃ cs : List String, c.text = joinSp cs ∧
        c.char_count = sumLen cs + cs.length - 1 ∧
        (sumLen cs ≤ size ∨ ∃ pre s, cs = pre ++ [s] ∧ sumLen pre ≤ ov) := by
  intro size ov pages c hc
  rw [chunkText, List.mem_flatMap] at hc
  obtain ⟨p, _, hcp⟩ := hc
  obtain ⟨cs, hcs, htext, hcount⟩ := chunkRecords_mem _ p.page 0 c hcp
  refine ⟨cs, htext, ?_, ?_⟩
  · rw [hcount, joinSp_length]
  · exact chunkGo_mem_inv size ov (splitIntoSentences p.text) [] 0 rfl (Or.inl rfl) cs hcs

/-- Witness for C3's amended bound at the `envC1` page texts. -/
theorem claim_C3_witness :
    ∃ cs : List String,
      ({ text := "Fund report page one. It has text.", page := 1, chunk_index := 0,
         char_count := 34 } : Chunk).text = joinSp cs ∧
      ({ text := "Fund report page one. It has text.", page := 1, chunk_index := 0,
         char_count := 34 } : Chunk).char_count = sumLen cs + cs.length - 1 ∧
      (sumLen cs ≤ 1000 ∨ ∃ pre s, cs = pre ++ [s] ∧ sumLen pre ≤ 200) :=
  claim_C3_chunk_size_bound 1000 200
    [⟨1, "Fund report page one. It has text."⟩] _ (by decide)

/-- Counterexample for C3 as stated: with configured budgets 100/20, a
page whose first two sentences are 50 characters each yields a first
chunk of `char_count` 101 — over the chunk size — although no sentence
of the page exceeds the budget, so the lone-oversize-sentence exception
does not apply.  (The same mechanism arises at the default budgets
1000/200 with 500-character sentences: the budget check compares
`current_length`, which never counts the joining spaces that
`char_count` counts.) -/
theorem claim_C3_counterexample :
    ((chunkText 100 20 [⟨1, c3Text⟩]).map Chunk.char_count = [101, 2]) ∧
    101 > 100 ∧
    (∀ s ∈ splitIntoSentences c3Text, s.length ≤ 100) := by
  refine ⟨by decide, by decide, by decide⟩

/-! ## Claim C4: chunk overlap -/

/-- Claim C4 (amended): on every page, the successor of each closed chunk
begins with the closed chunk's overlap seed — the maximal run of its
trailing sentences whose total character count does not exceed the
overlap budget; the seed is a suffix of the closed chunk, and its total
is at most (not at least) the overlap budget, possibly zero. -/
theorem claim_C4_overlap_seed :
    ∀ (size ov : Nat) (text : String),
      List.Chain' (fun c c' => overlapSeed ov c <+: c')
        (chunkSentences size ov (splitIntoSentences text)) ∧
      (∀ c : List String, overlapSeed ov c <:+ c ∧ sumLen (overlapSeed ov c) ≤ ov) :=
  fun size ov text =>
    ⟨(chunkGo_chain size ov (splitIntoSentences text) [] 0).1,
     fun c => ⟨overlapSeed_suffix ov c, overlapSeed_sumLen_le ov c⟩⟩

/-- Counterexample for C4 as stated: with configured budgets 100/20, a
page whose first chunk closes at a single 90-character sentence (over
the 20-character overlap budget) shares no character at all with the
following chunk — the seed walk could not fit that sentence — refuting
"at least the configured overlap budget's worth".  (The same mechanism
arises at the default budgets 1000/200 with a 900-character sentence:
the seed walk only takes trailing sentences that fit within the budget,
so the shared material is at most, never at least, the budget.) -/
theorem claim_C4_counterexample :
    ((chunkText 100 20 [⟨1, c4Text⟩]).map Chunk.text =
      [c4Sent1, c4Sent2 ++ " " ++ "c."]) ∧
    c4Sent1.length > 20 ∧
    (∀ s : List Char, s <:+ c4Sent1.data → s <+: (c4Sent2 ++ " " ++ "c.").data → s = []) := by
  refine ⟨by decide, by decide, fun s hsuf hpre => ?_⟩
  rcases s with _ | ⟨h, tl⟩
  · rfl
  · exfalso
    have hb : h = 'b' := by
      have : (c4Sent2 ++ " " ++ "c.").data = 'b' :: (List.replicate 28 'b' ++ ['.'] ++
          (" " ++ "c.").data) := by decide
      rw [this] at hpre
      exact (List.cons_prefix_cons.mp hpre).1
    have hmem : h ∈ c4Sent1.data := List.IsSuffix.subset hsuf (List.mem_cons_self h tl)
    have : c4Sent1.data = List.replicate 89 'a' ++ ['.'] := by decide
    rw [this, List.mem_append] at hmem
    rcases hmem with hmem | hmem
    · rw [List.eq_of_mem_replicate hmem] at hb
      simp at hb
    · rw [List.mem_singleton.mp hmem] at hb
      simp at hb

/-! ## Orchestrator lemmas -/

/-- Processing one table never changes `stats['tables_found']`. -/
theorem processOneTable_tables_found (env : OrchEnv) (i : Nat) (t : RawTable)
    (s : Stats) : (processOneTable env i t s).tables_found = s.tables_found := by
  rw [processOneTable]
  rcases classifyTableType t with _ | ty
  · rfl
  · rcases hsv : env.saveTable i with e | u <;>
      by_cases h1 : ty = "capital_calls" <;>
      by_cases h2 : ty = "distributions" <;>
      by_cases h3 : ty = "adjustments" <;>
      simp [h1, h2, h3, hsv, pushErr]

/-- The per-table loop never changes `stats['tables_found']`. -/
theorem processTablesFrom_tables_found (env : OrchEnv) :
    ∀ (ts : List RawTable) (i : Nat) (s : Stats),
      (processTablesFrom env i ts s).tables_found = s.tables_found
  | [], _, _ => rfl
  | t :: rest, i, s => by
    rw [processTablesFrom, processTablesFrom_tables_found env rest,
      processOneTable_tables_found]

/-! ## Claim C1: the fallback is not reached when a capital-call table parsed -/

/-- Counterexample for C1 as stated: a 2-page PDF with exactly one
clearly headed capital-call table of 2 valid rows and no distribution
table yields `capital_calls = 2` and `distributions = 0` — but the LLM
text-extraction fallback is invoked zero times, not once: the fallback
condition requires no tables, or both structured counts zero, and
neither holds. -/
theorem claim_C1_counterexample :
    (processDocument envC1).stats.capital_calls = 2 ∧
    (processDocument envC1).stats.distributions = 0 ∧
    (processDocument envC1).stats.tables_found = 1 ∧
    (processDocument envC1).stats.pages_processed = 2 ∧
    (processDocument envC1).llmCalls = 0 ∧
    ¬(processDocument envC1).llmCalls = 1 := by
  refine ⟨by decide, by decide, by decide, by decide, by decide, by decide⟩

/-- Claim C1 (amended): on such a run the stats are
`capital_calls = 2`, `distributions = 0`, and the fallback is invoked
zero times; in general, whenever tables were found and the structured
capital-call count is non-zero, `extract_data_from_text` is never
called. -/
theorem claim_C1_fallback_not_invoked :
    ((processDocument envC1).stats.capital_calls = 2 ∧
      (processDocument envC1).stats.distributions = 0 ∧
      (processDocument envC1).llmCalls = 0) ∧
    (∀ (env : OrchEnv) (tables : List RawTable), env.extractTables = .ok tables →
      tables.length ≠ 0 → (statsAfterTables env tables).capital_calls ≠ 0 →
      (processDocument env).llmCalls = 0) := by
  refine ⟨⟨by decide, by decide, by decide⟩, fun env tables hok hlen hcc => ?_⟩
  have htf : (statsAfterTables env tables).tables_found = tables.length := by
    rw [statsAfterTables, processTablesFrom_tables_found]
  have hfb : statsAfterFallback env tables = (statsAfterTables env tables, 0) := by
    rw [statsAfterFallback, fallbackStep, if_neg]
    rintro (h | ⟨h, _⟩)
    · exact hlen (htf ▸ h)
    · exact hcc h
  rw [processDocument, hok]
  dsimp only
  rw [hfb]
  rcases hrp : env.rawPages with e | raw
  · rfl
  · dsimp only
    rcases addAllChunks env 0
        (chunkText env.chunkSize env.chunkOverlap (extractTextContent raw)) with e | u
    · rfl
    · rfl

/-- Witness for C1's amended general clause at the concrete run. -/
theorem claim_C1_witness : (processDocument envC1).llmCalls = 0 :=
  claim_C1_fallback_not_invoked.2 envC1 [capTable] rfl (by decide) (by decide)

/-! ## Claim C2: terminal status and stat preservation -/

/-- Claim C2: every run either completes — status `completed`, no error
message, stats as accumulated — or fails on some step's exception —
status `failed` carrying that exception's message, with the returned
stats equal to everything accumulated before the failure plus the fatal
message appended to the error list (never reset or discarded). -/
theorem claim_C2_terminal_status :
    ∀ env : OrchEnv,
      ((processDocument env).success = true ∧
        (processDocument env).statusSet = ("completed", none) ∧
        (processDocument env).stats = statsBeforeFatal env) ∨
      (∃ e : String, (processDocument env).success = false ∧
        (processDocument env).statusSet = ("failed", some (fatalErrMsg e)) ∧
        (processDocument env).stats = pushErr (statsBeforeFatal env) (fatalErrMsg e)) := by
  intro env
  rw [processDocument, statsBeforeFatal]
  rcases het : env.extractTables with e | tables
  · exact Or.inr ⟨e, rfl, rfl, rfl⟩
  · dsimp only
    rcases hrp : env.rawPages with e | raw
    · exact Or.inr ⟨e, rfl, rfl, rfl⟩
    · dsimp only
      rcases addAllChunks env 0
          (chunkText env.chunkSize env.chunkOverlap (extractTextContent raw)) with e | u
      · exact Or.inr ⟨e, rfl, rfl, rfl⟩
      · exact Or.inl ⟨rfl, rfl, rfl⟩

/-- Appending on the left is cancellative for strings. -/
theorem string_append_cancel_left {a b c : String} (h : a ++ b = a ++ c) : b = c := by
  rcases a with ⟨la⟩
  rcases b with ⟨lb⟩
  rcases c with ⟨lc⟩
  have hd : la ++ lb = la ++ lc := congrArg String.data h
  exact congrArg String.mk (List.append_cancel_left hd)

/-- Exercise of C2's failure branch at a run whose text extraction step
raises: the status transition is `failed` with the fatal message, and
the stats still carry the two capital calls counted before the
failure. -/
theorem claim_C2_witness :
    (processDocument envC2fail).success = false ∧
    (processDocument envC2fail).statusSet =
      ("failed", some (fatalErrMsg "pdf went away")) ∧
    (processDocument envC2fail).stats.capital_calls = 2 ∧
    (processDocument envC2fail).stats.errors = [fatalErrMsg "pdf went away"] := by
  refine ⟨by decide, ?_, by decide, ?_⟩
  · have h := claim_C2_terminal_status envC2fail
    rcases h with ⟨hs, _, _⟩ | ⟨e, _, hst, _⟩
    · exact absurd hs (by decide)
    · rw [hst]
      have : e = "pdf went away" := by
        have hcomp : (processDocument envC2fail).statusSet =
            ("failed", some (fatalErrMsg "pdf went away")) := by decide
        rw [hcomp] at hst
        have h2 : some (fatalErrMsg "pdf went away") = some (fatalErrMsg e) :=
          (Prod.ext_iff.mp hst).2
        exact (string_append_cancel_left
          (show fatalErrMsg "pdf went away" = fatalErrMsg e from Option.some.inj h2)).symm
      rw [this]
  · decide
